import Mathlib

/-!
Shallow embedding of the sysroot-cache locking and configuration-resolution
layer of xargo (src/xargo.rs), together with theorems about its behaviour.

Rust types are embedded as Lean structures and inductives; filesystem and
process effects are abstracted into explicit world records (function fields
supplying the outcome of each primitive effect), so every function here is an
executable, deterministic Lean function of the code state plus a world.

Machine-level details that no statement here depends on (symlink resolution
inside canonicalize, the bytes of sentinel files) are abstracted; everything
a statement does depend on is translated from src/xargo.rs, except for the
few helpers living outside src (util::search, util::parse, flock, std
Path::canonicalize), which are modelled from the spec and std documentation
and carry a doc comment saying so.
-/

namespace Xargo

/-- Result type mirroring the error-chain `Result` of the Rust code: an error
is the chain of context strings, outermost first (`chain_err` prepends). -/
abbrev XResult (α : Type) := Except (List String) α

/-- `chain_err` from error-chain: wraps an error with one more context line. -/
def chain_err (ctx : String) : XResult α → XResult α
  | .error es => .error (ctx :: es)
  | .ok a => .ok a

/-- Embedding of `flock::Filesystem`: a directory path, kept as a string. -/
structure Filesystem where
  path : String
deriving DecidableEq, Repr

/-- `Filesystem::join`: path join, modelled as separator concatenation. -/
def Filesystem.join (fs : Filesystem) (comp : String) : Filesystem :=
  ⟨fs.path ++ "/" ++ comp⟩

/-- Advisory lock modes: shared (read) and exclusive (write). -/
inductive LockMode where
  | shared
  | exclusive
deriving DecidableEq, Repr

/-- Embedding of `flock::FileLock`: records which sentinel file was opened,
under which directory and in which mode. -/
structure FileLock where
  dir : Filesystem
  file : String
  mode : LockMode
deriving DecidableEq, Repr

/-- World for the advisory-lock primitive: for a directory, file name and
mode, `none` means the open succeeds, `some e` means it fails with the
underlying I/O error text `e`. -/
structure FlockWorld where
  openOutcome : Filesystem → String → LockMode → Option String

/-- Modelled from the spec: `flock::Filesystem::open_ro` opens a shared
advisory lock on `file` under `fs`, creating directories as needed; `msg` is
the human-readable subject used in the underlying error. The outcome is
supplied by the world. -/
def Filesystem.open_ro (w : FlockWorld) (fs : Filesystem) (file msg : String) :
    XResult FileLock :=
  match w.openOutcome fs file LockMode.shared with
  | none => .ok ⟨fs, file, LockMode.shared⟩
  | some e => .error [msg, e]

/-- Modelled from the spec: `flock::Filesystem::open_rw`, as `open_ro` but
requesting the exclusive mode. -/
def Filesystem.open_rw (w : FlockWorld) (fs : Filesystem) (file msg : String) :
    XResult FileLock :=
  match w.openOutcome fs file LockMode.exclusive with
  | none => .ok ⟨fs, file, LockMode.exclusive⟩
  | some e => .error [msg, e]

/-- Embedding of `Home`: the resolved sysroot cache root. -/
structure Home where
  path : Filesystem
deriving DecidableEq, Repr

/-- Embedding of the private method `Home::path(triple)`:
`self.path.join("lib/rustlib").join(triple)`. -/
def Home.sysrootPath (h : Home) (triple : String) : Filesystem :=
  (h.path.join "lib/rustlib").join triple

/-- Embedding of `Home::lock_ro`. -/
def Home.lock_ro (w : FlockWorld) (h : Home) (triple : String) : XResult FileLock :=
  let fs := h.sysrootPath triple
  chain_err ("couldn\x27t lock " ++ triple ++ "\x27s sysroot as read-only")
    (Filesystem.open_ro w fs ".sentinel" (triple ++ "\x27s sysroot"))

/-- Embedding of `Home::lock_rw`. The context string is copied verbatim from
the source, where it also says "as read-only". -/
def Home.lock_rw (w : FlockWorld) (h : Home) (triple : String) : XResult FileLock :=
  let fs := h.sysrootPath triple
  chain_err ("couldn\x27t lock " ++ triple ++ "\x27s sysroot as read-only")
    (Filesystem.open_rw w fs ".sentinel" (triple ++ "\x27s sysroot"))

/-- Embedding of `CompilationMode`, via the two observations the code under
src makes of it: `triple()` and `is_native()`. -/
structure CompilationMode where
  triple : String
  is_native : Bool
deriving DecidableEq, Repr

/-- The process environment read by `home`: `env::var_os("XARGO_HOME")` and
`dirs::home_dir()`. -/
structure Env where
  xargo_home : Option String
  home_dir : Option String
deriving DecidableEq, Repr

/-- Embedding of the free function `home(cmode)`. -/
def home (env : Env) (cmode : CompilationMode) : XResult Home :=
  match (match env.xargo_home with
    | some h => Except.ok h
    | none =>
      match env.home_dir with
      | some d => Except.ok (d ++ "/.xargo")
      | none =>
        Except.error ["couldn\x27t find your home directory. Is $HOME set?"]) with
  | .error e => .error e
  | .ok p =>
    let p := if cmode.is_native then p ++ "/HOST" else p
    .ok ⟨⟨p⟩⟩

/-- Embedding of `toml::Value` (the toml crate used by the source). -/
inductive Value where
  | vString : String → Value
  | vInteger : Int → Value
  | vBoolean : Bool → Value
  | vArray : List Value → Value
  | vTable : List (String × Value) → Value
deriving Repr

/-- `toml::Value::as_str`. -/
def Value.as_str : Value → Option String
  | .vString s => some s
  | _ => none

/-- `BTreeMap::get` on a table, modelled over the association list. -/
def tableGet (kvs : List (String × Value)) (k : String) : Option Value :=
  (kvs.find? fun kv => kv.1 == k).map Prod.snd

/-- Splitting a character list at every occurrence of `c` (the semantics of
Rust `str::split` with a one-character pattern, over the char list). -/
def splitOnChar (c : Char) : List Char → List (List Char)
  | [] => [[]]
  | a :: rest =>
    if a == c then [] :: splitOnChar c rest
    else
      match splitOnChar c rest with
      | [] => [[a]]
      | g :: gs => (a :: g) :: gs

/-- Dotted-path traversal underlying `toml::Value::lookup`; traverses nested
tables key by key (array indexing, unused by the source, is omitted). -/
def lookupGo : Value → List String → Option Value
  | v, [] => some v
  | .vTable kvs, k :: ks =>
    match tableGet kvs k with
    | some v => lookupGo v ks
    | none => none
  | _, _ :: _ => none

/-- `toml::Value::lookup`: splits the key on the dot character (as lookup in
the toml crate does) and traverses. -/
def Value.lookup (v : Value) (key : String) : Option Value :=
  lookupGo v ((splitOnChar '.' key.data).map fun g => String.mk g)

/-- Embedding of the `Toml` wrapper struct. -/
structure Toml where
  table : Value

/-- `Toml::dependencies`. -/
def Toml.dependencies (t : Toml) : Option Value :=
  t.table.lookup "dependencies"

/-- `Toml::target_dependencies`. -/
def Toml.target_dependencies (t : Toml) (target : String) : Option Value :=
  t.table.lookup ("target." ++ target ++ ".dependencies")

/-- `Toml::patch`. -/
def Toml.patch (t : Toml) : Option Value :=
  t.table.lookup "patch"

/-- `Toml::package`. -/
def Toml.package (t : Toml) : Option Value :=
  t.table.lookup "package"

/-- Embedding of `cargo::Root`: the project root directory, as the list of
its path segments from the filesystem root. -/
structure Root where
  path : List String

/-- World for the configuration-file search: which directory (as a segment
list) contains which file name, and what parsing the file at a given path
yields. -/
structure FsWorld where
  hasFile : List String → String → Bool
  parse : List String → XResult Value

/-- Worker for `search`, recursing over the reversed segment list: dropping
the head of the reversed list is dropping the last segment of the directory,
that is, stepping to the parent directory. -/
def searchAux (hasFile : List String → String → Bool) (file : String) :
    List String → Option (List String)
  | [] => if hasFile [] file then some [] else none
  | a :: rest =>
    if hasFile (a :: rest).reverse file then some (a :: rest).reverse
    else searchAux hasFile file rest

/-- Modelled from the spec: `util::search(dir, file)` walks upward from `dir`
toward the filesystem root and returns the first ancestor (inclusive of
`dir`) containing `file`, or `none` if no ancestor does. -/
def search (hasFile : List String → String → Bool) (dir : List String)
    (file : String) : Option (List String) :=
  searchAux hasFile file dir.reverse

/-- Embedding of the free function `toml(root)`: `util::parse` is modelled
from the spec as the world field `parse`, which already carries the chained
parse-error message naming the file. -/
def toml (w : FsWorld) (root : Root) :
    XResult (Option (List String) × Option Toml) :=
  match search w.hasFile root.path "Xargo.toml" with
  | some p =>
    match w.parse (p ++ ["Xargo.toml"]) with
    | .ok t => .ok (some p, some ⟨t⟩)
    | .error e => .error e
  | none => .ok (none, none)

/-- State consumed by `canonicalize`: the current working directory of the
process and which absolute paths name existing directories. -/
structure FsState where
  cwd : String
  dirExists : String → Bool

/-- Is the path string absolute (begins with the platform separator)? -/
def isAbsolutePath (sep : Char) (p : String) : Bool :=
  match p.data with
  | [] => false
  | c :: _ => c == sep

/-- Modelled from std documentation: `Path::canonicalize` resolves a relative
path against the current working directory of the process and fails when the
resulting path does not exist. (Symlink and dot-segment normalisation is
abstracted away: the canonical form of an existing path is the cwd-joined
path itself, which is all the statements below inspect.) -/
def canonicalize (fs : FsState) (sep : Char) (p : String) : Option String :=
  let abs := if isAbsolutePath sep p then p else fs.cwd ++ sep.toString ++ p
  if fs.dirExists abs then some abs else none

/-- Embedding of `rustc::Src`: wraps the canonical source-tree path. -/
structure Src where
  path : String
deriving DecidableEq, Repr

/-- The separator rewrite on the `rust-src` value:
`src.split("/").collect::<Vec<_>>().join(&MAIN_SEPARATOR.to_string())`,
with the platform separator `MAIN_SEPARATOR` passed as `sep`. -/
def rejoinSep (sep : Char) (s : String) : String :=
  String.intercalate sep.toString ((splitOnChar '/' s.data).map fun g => String.mk g)

/-- The warning line printed by `toml_src` when canonicalization fails
(verbatim from the source, trailing space included). -/
def rustSrcWarning : String :=
  "Warning: package.rust-src key exists but directory does not exist "

/-- Embedding of the free function `toml_src(root)`. Besides the `Result`
value of the source, the second component collects the warning lines printed
to stderr, so that silence versus warning is observable. The `dbg!` trace in
the source is non-contractual diagnostic output and is not modelled. -/
def toml_src (w : FsWorld) (fs : FsState) (sep : Char) (root : Root) :
    XResult (Option Src × List String) :=
  match toml w root with
  | .error e => .error e
  | .ok (_, otoml) =>
    .ok (match otoml with
      | some t =>
        match t.package with
        | some (Value.vTable table) =>
          match (tableGet table "rust-src").bind Value.as_str with
          | some src =>
            let src := rejoinSep sep src
            match canonicalize fs sep src with
            | some path => (some ⟨path⟩, [])
            | none => (none, [rustSrcWarning])
          | none => (none, [])
        | _ => (none, [])
      | none => (none, []))

/-- Embedding of `cargo::Subcommand`, to the extent `run` observes it: the
documentation subcommand versus everything else. -/
inductive Subcommand where
  | Build
  | Doc
  | Other
deriving DecidableEq, Repr

/-- Embedding of `cli::Args`, via the two observations `run` makes of it:
`all()` (the forwarded argument list) and `subcommand()`. -/
structure Args where
  all : List String
  subcommand : Option Subcommand

/-- Embedding of `cargo::Rustflags`, via the one observation `run` makes of
it: `for_xargo(home)`, the rendered flag string. -/
structure Rustflags where
  for_xargo : Home → String

/-- Embedding of `cargo::Rustdocflags`, via `for_xargo(home)`. -/
structure Rustdocflags where
  for_xargo : Home → String

/-- Embedding of `rustc_version::VersionMeta`, via the one field `run`
reads: `host`, the host triple. -/
structure VersionMeta where
  host : String

/-- Embedding of `cargo::Config` as an opaque token (only passed through). -/
structure Config

/-- The child process command under assembly: program, arguments and the
environment variables set on it, in the order they were set. -/
structure Cmd where
  program : String
  args : List String
  env : List (String × String)
deriving DecidableEq, Repr

/-- `cargo::command()`: a fresh command for the external build tool. -/
def cargoCommand : Cmd :=
  { program := "cargo", args := [], env := [] }

/-- World for `run`: the lock primitive, the outcome of
`cargo::rustdocflags(config, triple)`, and the outcome of
`cmd.run_and_get_status(verbose)` (error = launch failure, ok = the exit
status of the child). -/
structure RunWorld where
  flock : FlockWorld
  rustdocflags : Option Config → String → XResult Rustdocflags
  run_and_get_status : Cmd → Bool → XResult Nat

/-- Embedding of the free function `run`. Returns the `Result<ExitStatus>`
of the source paired with an observation: the command as launched (`some`),
or `none` when the function returned before reaching the launch. The
`verbose` stderr echo of the flags is diagnostic output and is not
modelled. -/
def run (w : RunWorld) (args : Args) (cmode : CompilationMode)
    (rustflags : Rustflags) (home : Home) (meta : VersionMeta)
    (config : Option Config) (verbose : Bool) : XResult Nat × Option Cmd :=
  let cmd := { cargoCommand with args := cargoCommand.args ++ args.all }
  let docStep : XResult Cmd :=
    if args.subcommand == some Subcommand.Doc then
      match w.rustdocflags config cmode.triple with
      | .error e => .error e
      | .ok rdf =>
        .ok { cmd with env := cmd.env ++ [("RUSTDOCFLAGS", rdf.for_xargo home)] }
    else
      .ok cmd
  match docStep with
  | .error e => (.error e, none)
  | .ok cmd =>
    let flags := rustflags.for_xargo home
    let cmd := { cmd with env := cmd.env ++ [("RUSTFLAGS", flags)] }
    let locks := (Home.lock_ro w.flock home meta.host,
                  Home.lock_ro w.flock home cmode.triple)
    match w.run_and_get_status cmd verbose with
    | .error e => (.error e, some cmd)
    | .ok status =>
      let _ := locks
      (.ok status, some cmd)

/-! ### Helper lemmas -/

/-- If no directory visited by `searchAux` contains the file, the search
comes up empty. The directories visited are the reversals of the suffixes of
the reversed segment list. -/
theorem searchAux_eq_none (hasFile : List String → String → Bool)
    (file : String) :
    ∀ rev : List String,
      (∀ k : Nat, hasFile ((rev.drop k).reverse) file = false) →
      searchAux hasFile file rev = none := by
  intro rev
  induction rev with
  | nil =>
    intro h
    have h0 := h 0
    simp only [List.drop_zero, List.reverse_nil] at h0
    simp [searchAux, h0]
  | cons a rest ih =>
    intro h
    have h0 := h 0
    simp only [List.drop_zero] at h0
    simp only [searchAux, h0, Bool.false_eq_true, if_false]
    exact ih fun k => by simpa using h (k + 1)

/-- If no ancestor (inclusive) of `dir` contains the file, `search` returns
`none`. Ancestors of `dir` are exactly its `take` prefixes. -/
theorem search_eq_none_of_no_ancestor (hasFile : List String → String → Bool)
    (file : String) (dir : List String)
    (h : ∀ n : Nat, hasFile (dir.take n) file = false) :
    search hasFile dir file = none := by
  unfold search
  apply searchAux_eq_none
  intro k
  rw [List.drop_reverse, List.reverse_reverse]
  exact h _

/-! ### Claim theorems -/

/-- C3: `toml(project_root)` returns `(None, None)` without error when no
ancestor of the project root (inclusive) contains a Xargo.toml file, and
returns the parse error (an `Err` value, not `(None, None)` and no panic)
when the nearest Xargo.toml exists but is malformed. -/
theorem toml_absent_or_parse_error (w : FsWorld) (root : Root) :
    ((∀ n : Nat, w.hasFile (root.path.take n) "Xargo.toml" = false) →
      toml w root = .ok (none, none)) ∧
    (∀ p e, search w.hasFile root.path "Xargo.toml" = some p →
      w.parse (p ++ ["Xargo.toml"]) = .error e →
      toml w root = .error e) := by
  constructor
  · intro h
    unfold toml
    rw [search_eq_none_of_no_ancestor w.hasFile "Xargo.toml" root.path h]
  · intro p e hs hp
    unfold toml
    rw [hs]
    simp [hp]

theorem toml_absent_or_parse_error_witness :
    toml ⟨fun _ _ => false, fun _ => .ok (Value.vTable [])⟩ ⟨["home", "proj"]⟩
        = .ok (none, none) ∧
    toml ⟨fun _ _ => true, fun _ => .error ["parse failed"]⟩ ⟨["proj"]⟩
        = .error ["parse failed"] := by
  constructor
  · exact (toml_absent_or_parse_error _ _).1 fun n => rfl
  · exact (toml_absent_or_parse_error _ _).2 ["proj"] ["parse failed"] rfl rfl

/-- C4: for every triple `t`, the sysroot path of a `Home` resolved in
native mode differs from the sysroot path of a `Home` resolved in non-native
mode from the same environment: the native base path carries the extra
fixed HOST marker subdirectory. -/
theorem native_home_sysroot_ne_cross (env : Env) (cmN cmX : CompilationMode)
    (t : String) (hmN hmX : Home)
    (hn : cmN.is_native = true) (hx : cmX.is_native = false)
    (hN : home env cmN = .ok hmN) (hX : home env cmX = .ok hmX) :
    hmN.sysrootPath t ≠ hmX.sysrootPath t := by
  have hbase : ∃ p : String, hmN = ⟨⟨p ++ "/HOST"⟩⟩ ∧ hmX = ⟨⟨p⟩⟩ := by
    cases hxh : env.xargo_home with
    | some h =>
      refine ⟨h, ?_, ?_⟩
      · simp [home, hxh, hn] at hN
        exact hN.symm
      · simp [home, hxh, hx] at hX
        exact hX.symm
    | none =>
      cases hhd : env.home_dir with
      | some d =>
        refine ⟨d ++ "/.xargo", ?_, ?_⟩
        · simp [home, hxh, hhd, hn] at hN
          exact hN.symm
        · simp [home, hxh, hhd, hx] at hX
          exact hX.symm
      | none =>
        simp [home, hxh, hhd] at hN
  obtain ⟨p, rfl, rfl⟩ := hbase
  intro heq
  have hlen := congrArg (fun fs => fs.path.length) heq
  simp only [Home.sysrootPath, Filesystem.join, String.length_append] at hlen
  have h5 : ("/HOST" : String).length = 5 := rfl
  rw [h5] at hlen
  omega

theorem native_home_sysroot_ne_cross_witness :
    (⟨⟨"/c/HOST"⟩⟩ : Home).sysrootPath "thumbv6m-none-eabi"
      ≠ (⟨⟨"/c"⟩⟩ : Home).sysrootPath "thumbv6m-none-eabi" :=
  native_home_sysroot_ne_cross ⟨some "/c", none⟩
    ⟨"thumbv6m-none-eabi", true⟩ ⟨"thumbv6m-none-eabi", false⟩
    "thumbv6m-none-eabi" ⟨⟨"/c/HOST"⟩⟩ ⟨⟨"/c"⟩⟩ rfl rfl rfl rfl

/-- C5: `home(cmode)` uses the XARGO_HOME override as the cache root when it
is set; otherwise it uses the home directory joined with the fixed folder
name .xargo; and it fails exactly when the override is absent and no home
directory can be determined. -/
theorem home_env_override_or_default (env : Env) (cmode : CompilationMode) :
    (∀ h, env.xargo_home = some h →
      home env cmode = .ok ⟨⟨if cmode.is_native then h ++ "/HOST" else h⟩⟩) ∧
    (∀ d, env.xargo_home = none → env.home_dir = some d →
      home env cmode =
        .ok ⟨⟨if cmode.is_native then (d ++ "/.xargo") ++ "/HOST"
              else d ++ "/.xargo"⟩⟩) ∧
    ((∃ e, home env cmode = .error e) ↔
      env.xargo_home = none ∧ env.home_dir = none) := by
  refine ⟨?_, ?_, ?_, ?_⟩
  · intro h hx
    simp [home, hx]
  · intro d hx hd
    simp [home, hx, hd]
  · rintro ⟨e, he⟩
    cases hx : env.xargo_home with
    | some h => simp [home, hx] at he
    | none =>
      cases hd : env.home_dir with
      | some d => simp [home, hx, hd] at he
      | none => exact ⟨rfl, rfl⟩
  · rintro ⟨hx, hd⟩
    exact ⟨["couldn\x27t find your home directory. Is $HOME set?"],
      by simp [home, hx, hd]⟩

theorem home_env_override_or_default_witness :
    home ⟨some "/xh", none⟩ ⟨"t", false⟩ = .ok ⟨⟨"/xh"⟩⟩ ∧
    home ⟨none, some "/u"⟩ ⟨"t", true⟩ = .ok ⟨⟨"/u/.xargo/HOST"⟩⟩ ∧
    (∃ e, home ⟨none, none⟩ ⟨"t", false⟩ = .error e) := by
  refine ⟨?_, ?_, ?_⟩
  · exact (home_env_override_or_default ⟨some "/xh", none⟩ ⟨"t", false⟩).1 "/xh" rfl
  · exact (home_env_override_or_default ⟨none, some "/u"⟩ ⟨"t", true⟩).2.1 "/u" rfl rfl
  · exact (home_env_override_or_default ⟨none, none⟩ ⟨"t", false⟩).2.2.mpr ⟨rfl, rfl⟩

/-- C7: for every triple `t`, `Home::path` yields the base path joined with
lib/rustlib joined with `t`, and both lock functions open their sentinel
file, named .sentinel, under exactly that path. -/
theorem sysroot_path_and_sentinel (w : FlockWorld) (hm : Home) (t : String) :
    hm.sysrootPath t = ⟨hm.path.path ++ "/" ++ "lib/rustlib" ++ "/" ++ t⟩ ∧
    (∀ fl, Home.lock_ro w hm t = .ok fl →
      fl = ⟨hm.sysrootPath t, ".sentinel", LockMode.shared⟩) ∧
    (∀ fl, Home.lock_rw w hm t = .ok fl →
      fl = ⟨hm.sysrootPath t, ".sentinel", LockMode.exclusive⟩) := by
  refine ⟨rfl, ?_, ?_⟩
  · intro fl hfl
    simp only [Home.lock_ro, Filesystem.open_ro] at hfl
    cases ho : w.openOutcome (hm.sysrootPath t) ".sentinel" LockMode.shared with
    | none =>
      rw [ho] at hfl
      simp [chain_err] at hfl
      exact hfl.symm
    | some e =>
      rw [ho] at hfl
      simp [chain_err] at hfl
  · intro fl hfl
    simp only [Home.lock_rw, Filesystem.open_rw] at hfl
    cases ho : w.openOutcome (hm.sysrootPath t) ".sentinel" LockMode.exclusive with
    | none =>
      rw [ho] at hfl
      simp [chain_err] at hfl
      exact hfl.symm
    | some e =>
      rw [ho] at hfl
      simp [chain_err] at hfl

theorem sysroot_path_and_sentinel_witness :
    (⟨⟨"/h"⟩⟩ : Home).sysrootPath "tt" = ⟨"/h/lib/rustlib/tt"⟩ ∧
    (⟨⟨"/h/lib/rustlib/tt"⟩, ".sentinel", LockMode.shared⟩ : FileLock)
      = ⟨(⟨⟨"/h"⟩⟩ : Home).sysrootPath "tt", ".sentinel", LockMode.shared⟩ ∧
    (⟨⟨"/h/lib/rustlib/tt"⟩, ".sentinel", LockMode.exclusive⟩ : FileLock)
      = ⟨(⟨⟨"/h"⟩⟩ : Home).sysrootPath "tt", ".sentinel", LockMode.exclusive⟩ := by
  refine ⟨?_, ?_, ?_⟩
  · exact (sysroot_path_and_sentinel ⟨fun _ _ _ => none⟩ ⟨⟨"/h"⟩⟩ "tt").1
  · exact (sysroot_path_and_sentinel ⟨fun _ _ _ => none⟩ ⟨⟨"/h"⟩⟩ "tt").2.1 _ rfl
  · exact (sysroot_path_and_sentinel ⟨fun _ _ _ => none⟩ ⟨⟨"/h"⟩⟩ "tt").2.2 _ rfl

/-- C10: when the sentinel open fails, the context attached by `lock_rw`
(the exclusive lock) is the text: couldn\x27t lock \x7btriple\x7d\x27s
sysroot as read-only — it names the triple but labels the mode read-only,
identically to the context attached by `lock_ro`. -/
theorem lock_rw_error_says_read_only (w : FlockWorld) (hm : Home)
    (t e : String)
    (hrw : w.openOutcome (hm.sysrootPath t) ".sentinel" LockMode.exclusive
      = some e) :
    Home.lock_rw w hm t =
      .error ["couldn\x27t lock " ++ t ++ "\x27s sysroot as read-only",
              t ++ "\x27s sysroot", e] ∧
    (∀ e', w.openOutcome (hm.sysrootPath t) ".sentinel" LockMode.shared
        = some e' →
      Home.lock_ro w hm t =
        .error ["couldn\x27t lock " ++ t ++ "\x27s sysroot as read-only",
                t ++ "\x27s sysroot", e']) := by
  constructor
  · simp only [Home.lock_rw, Filesystem.open_rw]
    rw [hrw]
    rfl
  · intro e' hro
    simp only [Home.lock_ro, Filesystem.open_ro]
    rw [hro]
    rfl

theorem lock_rw_error_says_read_only_witness :
    Home.lock_rw ⟨fun _ _ _ => some "eio"⟩ ⟨⟨"/h"⟩⟩ "tt" =
      .error ["couldn\x27t lock tt\x27s sysroot as read-only",
              "tt\x27s sysroot", "eio"] ∧
    Home.lock_ro ⟨fun _ _ _ => some "eio"⟩ ⟨⟨"/h"⟩⟩ "tt" =
      .error ["couldn\x27t lock tt\x27s sysroot as read-only",
              "tt\x27s sysroot", "eio"] := by
  have h := lock_rw_error_says_read_only ⟨fun _ _ _ => some "eio"⟩ ⟨⟨"/h"⟩⟩
    "tt" "eio" rfl
  exact ⟨h.1, h.2 "eio" rfl⟩

/-- C1 (code bug): `run` stores the two `lock_ro` results in a tuple without
propagating them, so a lock-acquisition failure does not abort the function:
the external process is still launched and its status returned, and the lock
error is silently discarded. Concretely, with a world whose sentinel open
always fails, `lock_ro` on the host triple is an error, yet `run` launches
the command and returns its exit status Ok(0). -/
theorem run_launches_despite_lock_failure :
    Home.lock_ro ⟨fun _ _ _ => some "permission denied"⟩ ⟨⟨"/h"⟩⟩ "host-triple"
      = .error ["couldn\x27t lock host-triple\x27s sysroot as read-only",
                "host-triple\x27s sysroot", "permission denied"] ∧
    run ⟨⟨fun _ _ _ => some "permission denied"⟩,
         fun _ _ => .ok ⟨fun _ => ""⟩,
         fun _ _ => .ok 0⟩
        ⟨["build"], some Subcommand.Build⟩ ⟨"target-triple", false⟩
        ⟨fun _ => "--flags"⟩ ⟨⟨"/h"⟩⟩ ⟨"host-triple"⟩ none false
      = (.ok 0,
         some { program := "cargo", args := ["build"], env := [("RUSTFLAGS", "--flags")] }) :=
  ⟨rfl, rfl⟩

/-- C9: whenever `run` reaches the launch of the external process, the
launched command has RUSTDOCFLAGS set if and only if the invoked subcommand
is the documentation subcommand, and always has RUSTFLAGS set to the flags
rendered relative to the `Home`. -/
theorem run_env_rustflags_rustdocflags (w : RunWorld) (args : Args)
    (cmode : CompilationMode) (rustflags : Rustflags) (hm : Home)
    (meta : VersionMeta) (config : Option Config) (verbose : Bool)
    (res : XResult Nat) (cmd : Cmd)
    (hrun : run w args cmode rustflags hm meta config verbose
      = (res, some cmd)) :
    ("RUSTFLAGS", rustflags.for_xargo hm) ∈ cmd.env ∧
    ((∃ v, ("RUSTDOCFLAGS", v) ∈ cmd.env) ↔
      args.subcommand = some Subcommand.Doc) := by
  simp only [run, cargoCommand, List.nil_append] at hrun
  split at hrun
  · -- the docStep errored: run returned (error, none) before the launch
    simp at hrun
  · rename_i cmd1 hstep
    split at hrun
    all_goals
      simp only [Prod.mk.injEq, Option.some.injEq] at hrun
      obtain ⟨-, hcmd⟩ := hrun
      subst hcmd
    all_goals
      split at hstep
    · -- launch failed, documentation subcommand
      rename_i hdoc
      simp only [beq_iff_eq] at hdoc
      split at hstep
      · simp at hstep
      · rename_i rdf hrd
        simp only [Except.ok.injEq] at hstep
        subst hstep
        refine ⟨by simp, ?_, fun _ => ⟨rdf.for_xargo hm, by simp⟩⟩
        intro _
        exact hdoc
    · -- launch failed, other subcommand
      rename_i hdoc
      simp only [Except.ok.injEq] at hstep
      subst hstep
      refine ⟨by simp, ?_, ?_⟩
      · rintro ⟨v, hv⟩
        simp at hv
      · intro hc
        rw [hc] at hdoc
        simp at hdoc
    · -- launch succeeded, documentation subcommand
      rename_i hdoc
      simp only [beq_iff_eq] at hdoc
      split at hstep
      · simp at hstep
      · rename_i rdf hrd
        simp only [Except.ok.injEq] at hstep
        subst hstep
        refine ⟨by simp, ?_, fun _ => ⟨rdf.for_xargo hm, by simp⟩⟩
        intro _
        exact hdoc
    · -- launch succeeded, other subcommand
      rename_i hdoc
      simp only [Except.ok.injEq] at hstep
      subst hstep
      refine ⟨by simp, ?_, ?_⟩
      · rintro ⟨v, hv⟩
        simp at hv
      · intro hc
        rw [hc] at hdoc
        simp at hdoc

theorem run_env_rustflags_rustdocflags_witness :
    ("RUSTFLAGS", "rf")
      ∈ ({ program := "cargo", args := ["doc"], env := [("RUSTDOCFLAGS", "docf"), ("RUSTFLAGS", "rf")] } : Cmd).env ∧
    ((∃ v, ("RUSTDOCFLAGS", v)
      ∈ ({ program := "cargo", args := ["doc"], env := [("RUSTDOCFLAGS", "docf"), ("RUSTFLAGS", "rf")] } : Cmd).env) ↔
      some Subcommand.Doc = some Subcommand.Doc) :=
  run_env_rustflags_rustdocflags
    ⟨⟨fun _ _ _ => none⟩, fun _ _ => .ok ⟨fun _ => "docf"⟩, fun _ _ => .ok 0⟩
    ⟨["doc"], some Subcommand.Doc⟩ ⟨"t", false⟩ ⟨fun _ => "rf"⟩ ⟨⟨"/h"⟩⟩
    ⟨"h64"⟩ none false (.ok 0) _ rfl

/-- C2 (counterexample): a Xargo.toml in the project root directory /proj
declares rust-src "a/b/c", and the directory a/b/c exists under the project
root (its canonical form is /proj/a/b/c); but the process current working
directory is /x, and toml_src returns the canonical form of the cwd-joined
path /x/a/b/c — not the canonical form of project-root-joined path. -/
theorem toml_src_resolves_against_cwd_counterexample :
    toml_src
      ⟨fun d f => d == ["proj"] && f == "Xargo.toml",
       fun _ => .ok (Value.vTable [("package",
         Value.vTable [("rust-src", Value.vString "a/b/c")])])⟩
      ⟨"/x", fun p => p == "/x/a/b/c" || p == "/proj/a/b/c"⟩ '/' ⟨["proj"]⟩
      = .ok (some ⟨"/x/a/b/c"⟩, []) ∧
    canonicalize ⟨"/x", fun p => p == "/x/a/b/c" || p == "/proj/a/b/c"⟩ '/'
        ("/proj/" ++ "a/b/c") = some "/proj/a/b/c" ∧
    (⟨"/x/a/b/c"⟩ : Src) ≠ (⟨"/proj/a/b/c"⟩ : Src) := by
  refine ⟨rfl, rfl, ?_⟩
  decide

/-- C2 (amended): for a package.rust-src string value, toml_src resolves the
rejoined path, when relative, against the current working directory of the
process — not against the project root — and returns Some wrapping the
canonical form of <cwd>/<rejoined value> when that directory exists. It
coincides with the canonical form of <project_root>/<value> only when the
process cwd is the project root. -/
theorem toml_src_resolves_against_cwd (w : FsWorld) (fs : FsState)
    (sep : Char) (root : Root) (pr : Option (List String)) (t : Toml)
    (table : List (String × Value)) (s : String)
    (h1 : toml w root = .ok (pr, some t))
    (h2 : t.package = some (Value.vTable table))
    (h3 : (tableGet table "rust-src").bind Value.as_str = some s)
    (h4 : isAbsolutePath sep (rejoinSep sep s) = false)
    (h5 : fs.dirExists (fs.cwd ++ sep.toString ++ rejoinSep sep s) = true) :
    toml_src w fs sep root =
      .ok (some ⟨fs.cwd ++ sep.toString ++ rejoinSep sep s⟩, []) := by
  simp [toml_src, h1, h2, h3, canonicalize, h4, h5]

theorem toml_src_resolves_against_cwd_witness :
    toml_src
      ⟨fun d f => d == ["proj"] && f == "Xargo.toml",
       fun _ => .ok (Value.vTable [("package",
         Value.vTable [("rust-src", Value.vString "lib/rust-src")])])⟩
      ⟨"/cwd", fun p => p == "/cwd/lib/rust-src"⟩ '/' ⟨["proj"]⟩
      = .ok (some ⟨"/cwd/lib/rust-src"⟩, []) :=
  toml_src_resolves_against_cwd
    ⟨fun d f => d == ["proj"] && f == "Xargo.toml",
     fun _ => .ok (Value.vTable [("package",
       Value.vTable [("rust-src", Value.vString "lib/rust-src")])])⟩
    ⟨"/cwd", fun p => p == "/cwd/lib/rust-src"⟩ '/' ⟨["proj"]⟩
    _ _ _ "lib/rust-src" rfl rfl rfl rfl rfl

/-- C6: toml_src returns None together with the warning line (and no error)
when a declared rust-src string fails canonicalization; and returns None
silently (no warning, no error) when the rust-src key is missing or not a
string, when the package value is missing or not a table, and when no
configuration document exists. -/
theorem toml_src_warning_and_silence (w : FsWorld) (fs : FsState) (sep : Char)
    (root : Root) :
    (∀ pr t table s, toml w root = .ok (pr, some t) →
      t.package = some (Value.vTable table) →
      (tableGet table "rust-src").bind Value.as_str = some s →
      canonicalize fs sep (rejoinSep sep s) = none →
      toml_src w fs sep root = .ok (none, [rustSrcWarning])) ∧
    (∀ pr t table, toml w root = .ok (pr, some t) →
      t.package = some (Value.vTable table) →
      (tableGet table "rust-src").bind Value.as_str = none →
      toml_src w fs sep root = .ok (none, [])) ∧
    (∀ pr t, toml w root = .ok (pr, some t) →
      (∀ table, t.package ≠ some (Value.vTable table)) →
      toml_src w fs sep root = .ok (none, [])) ∧
    (∀ pr, toml w root = .ok (pr, none) →
      toml_src w fs sep root = .ok (none, [])) := by
  refine ⟨?_, ?_, ?_, ?_⟩
  · intro pr t table s h1 h2 h3 h4
    simp [toml_src, h1, h2, h3, h4]
  · intro pr t table h1 h2 h3
    simp [toml_src, h1, h2, h3]
  · intro pr t h1 hnt
    cases hpkg : t.package with
    | none => simp [toml_src, h1, hpkg]
    | some v =>
      cases v with
      | vString s => simp [toml_src, h1, hpkg]
      | vInteger n => simp [toml_src, h1, hpkg]
      | vBoolean b => simp [toml_src, h1, hpkg]
      | vArray a => simp [toml_src, h1, hpkg]
      | vTable tbl => exact absurd hpkg (hnt tbl)
  · intro pr h1
    simp [toml_src, h1]

theorem toml_src_warning_and_silence_witness :
    toml_src
      ⟨fun _ _ => true,
       fun _ => .ok (Value.vTable [("package",
         Value.vTable [("rust-src", Value.vString "no/such/dir")])])⟩
      ⟨"/c", fun _ => false⟩ '/' ⟨["proj"]⟩ = .ok (none, [rustSrcWarning]) ∧
    toml_src ⟨fun _ _ => false, fun _ => .ok (Value.vTable [])⟩
      ⟨"/c", fun _ => false⟩ '/' ⟨["proj"]⟩ = .ok (none, []) := by
  constructor
  · exact (toml_src_warning_and_silence
      ⟨fun _ _ => true,
       fun _ => .ok (Value.vTable [("package",
         Value.vTable [("rust-src", Value.vString "no/such/dir")])])⟩
      ⟨"/c", fun _ => false⟩ '/' ⟨["proj"]⟩).1
      _ _ _ "no/such/dir" rfl rfl rfl rfl
  · exact (toml_src_warning_and_silence
      ⟨fun _ _ => false, fun _ => .ok (Value.vTable [])⟩
      ⟨"/c", fun _ => false⟩ '/' ⟨["proj"]⟩).2.2.2 none rfl

/-- C8: for every rust-src string value, toml_src rewrites the string by
splitting it on forward slashes and rejoining the segments with the platform
separator (the rejoinSep rewrite) before canonicalization: the outcome is
entirely determined by canonicalize applied to the rejoined string. -/
theorem toml_src_rejoins_separators (w : FsWorld) (fs : FsState) (sep : Char)
    (root : Root) (pr : Option (List String)) (t : Toml)
    (table : List (String × Value)) (s : String)
    (h1 : toml w root = .ok (pr, some t))
    (h2 : t.package = some (Value.vTable table))
    (h3 : (tableGet table "rust-src").bind Value.as_str = some s) :
    rejoinSep sep s
      = String.intercalate sep.toString
          ((splitOnChar '/' s.data).map fun g => String.mk g) ∧
    toml_src w fs sep root =
      .ok (match canonicalize fs sep (rejoinSep sep s) with
        | some path => (some ⟨path⟩, [])
        | none => (none, [rustSrcWarning])) := by
  refine ⟨rfl, ?_⟩
  simp [toml_src, h1, h2, h3]

theorem toml_src_rejoins_separators_witness :
    rejoinSep '\\' "a/b/c" = "a\\b\\c" ∧
    toml_src
      ⟨fun _ _ => true,
       fun _ => .ok (Value.vTable [("package",
         Value.vTable [("rust-src", Value.vString "a/b/c")])])⟩
      ⟨"C:", fun _ => false⟩ '\\' ⟨["proj"]⟩
      = .ok (none, [rustSrcWarning]) := by
  have h := toml_src_rejoins_separators
    ⟨fun _ _ => true,
     fun _ => .ok (Value.vTable [("package",
       Value.vTable [("rust-src", Value.vString "a/b/c")])])⟩
    ⟨"C:", fun _ => false⟩ '\\' ⟨["proj"]⟩ _ _ _ "a/b/c" rfl rfl rfl
  exact ⟨rfl, h.2⟩

end Xargo
